import Mathlib

/-!
# The 256-bit counter page (`miniprojects/256/script.js`)

A shallow embedding of the value source (`shifts`, `speeds`, `loop`, `fillTo`)
and of the grid renderer (`prepareCanvas`: `fixCanvasSize`, `renderCircle`,
`renderNumbers`, `update`, the `ResizeObserver` callback).

* BigInt values are `Int`; BigInt `/` is division truncating toward zero.
* Strings are `List Char`; arrays are `List`; the limit `2^32 - 1` on the length of an
  array is checked where the script creates one.
* Numbers of the geometry code are exact rationals (`ℚ`): the rounding of binary64
  arithmetic is not modelled.
* A thrown `RangeError` is the `Except.error` result.
-/

namespace Script256

/-! ## Value source -/

/-- The constant `secInDay = BigInt(24 * 60 * 60)`. -/
def secInDay : Int := 24 * 60 * 60

/-- The constant `secInYear = BigInt(365) * secInDay`. -/
def secInYear : Int := 365 * secInDay

/-- Keys of the `shifts` object. -/
inductive ShiftName where
  | pageloaded
  | ad
  | universe
  deriving DecidableEq, Repr

/-- Keys of the `speeds` object. -/
inductive SpeedName where
  | sec
  | i7
  | gpu
  | asic
  | google
  deriving DecidableEq, Repr

/-- The `shifts` object; `now` is the page-load instant `+new Date()` in milliseconds. -/
def shifts (now : Int) : ShiftName → Int
  | .pageloaded => -now
  | .ad => 1970 * secInYear
  | .universe => 13700000000 * secInYear

/-- The constant `i7 = 70_000_000_000n`. -/
def i7 : Int := 70000000000

/-- The constant `gpu = 8000_000_000_000n`. -/
def gpu : Int := 8000000000000

/-- The constant `asic = 150_000_000_000_000n`. -/
def asic : Int := 150000000000000

/-- The constant `google = 1_000_000n * i7`. -/
def google : Int := 1000000 * i7

/-- The `speeds` object. -/
def speeds : SpeedName → Int
  | .sec => 1
  | .i7 => i7
  | .gpu => gpu
  | .asic => asic
  | .google => google

/-- The variable `selectedBase = 256`; the script never assigns it again. -/
def selectedBase : Nat := 256

/-- BigInt division `a / b`: the quotient rounded toward zero. -/
def bigIntDiv (a b : Int) : Int := Int.tdiv a b

/-- The counter of `loop`: `((shift + now) * speed) / 1000n`, where `pageLoad` is the
module-level `now` and `dateNow` is `Date.now()`. -/
def loopTotal (pageLoad : Int) (selectedShift : ShiftName) (selectedSpeed : SpeedName)
    (dateNow : Int) : Int :=
  bigIntDiv ((shifts pageLoad selectedShift + dateNow) * speeds selectedSpeed) 1000

/-- One binary digit as a character. -/
def binDigitChar (d : Nat) : Char := if d = 0 then '0' else '1'

/-- Binary digits of a natural number, most significant first, by repeated halving;
the first argument bounds the number of halvings. -/
def natBinaryAux : Nat → Nat → List Char
  | 0, _ => []
  | fuel + 1, n =>
    if n < 2 then [binDigitChar n] else natBinaryAux fuel (n / 2) ++ [binDigitChar (n % 2)]

/-- Binary digits of a natural number without leading zeros (`0` gives `"0"`). -/
def natBinary (n : Nat) : List Char := natBinaryAux (n + 1) n

/-- The conversion `BigInt.prototype.toString(2)`: a minus sign for a negative value, then the binary
digits of the magnitude. -/
def toString2 (total : Int) : List Char :=
  if total < 0 then '-' :: natBinary total.natAbs else natBinary total.natAbs

/-- The array `total.toString(2).split('').map((e) => e === '1')`. -/
def asArray (total : Int) : List Bool :=
  (toString2 total).map (fun e => e == '1')

/-- Errors thrown by the script. -/
inductive JsError where
  | rangeError
  deriving DecidableEq, Repr

/-- The largest length an array can have, `2^32 - 1`. -/
def maxArrayLength : Nat := 4294967295

/-- The function `fillTo(origin, base)`. `new Array(len)` throws a `RangeError` unless
`0 ≤ len ≤ 2^32 - 1`; `a.fill(false)` sets every entry to `false`; `a.concat(origin)` throws
a `RangeError` when the result would be longer than `2^32 - 1` (an array has at most
`2^32 - 1` entries, so the `TypeError` of `concat` beyond `2^53 - 1` cannot arise). -/
def fillTo (origin : List Bool) (base : Nat) : Except JsError (List Bool) :=
  let len : Int := (base : Int) - (origin.length : Int)
  if len < 0 ∨ (maxArrayLength : Int) < len then
    .error .rangeError
  else
    let a := List.replicate len.toNat false
    if maxArrayLength < a.length + origin.length then
      .error .rangeError
    else
      .ok (a ++ origin)

/-- The largest magnitude of a time value of `Date`, in milliseconds. -/
def maxTimeValue : Int := 8640000000000000

/-- The integers that `+new Date()` and `Date.now()` can return. -/
def isTimeValue (ms : Int) : Prop := -maxTimeValue ≤ ms ∧ ms ≤ maxTimeValue

instance (ms : Int) : Decidable (isTimeValue ms) := by
  unfold isTimeValue
  infer_instance

/-- The bit computation of `loop` on a given counter: `fillTo(asArray, base)`. -/
def totalBits (total : Int) (base : Nat) : Except JsError (List Bool) :=
  fillTo (asArray total) base

/-- The array `arr` that `loop` hands to `renderer.update`. -/
def loopBits (pageLoad : Int) (selectedShift : ShiftName) (selectedSpeed : SpeedName)
    (dateNow : Int) : Except JsError (List Bool) :=
  totalBits (loopTotal pageLoad selectedShift selectedSpeed dateNow) selectedBase

/-! ## Grid renderer -/

/-- Calls made on the 2D drawing context `ctx`, in program order. An `arc` is always the full
circle `ctx.arc(x, y, radius, 0, 2 * Math.PI)`; `setFont px` is the font of `px` pixels Arial. -/
inductive CtxCall where
  | setFillStyle (style : String)
  | clearRect (x y w h : ℚ)
  | beginPath
  | moveTo (x y : ℚ)
  | arc (x y radius : ℚ)
  | fill
  | setFont (px : ℚ)
  | setTextAlign (align : String)
  | fillText (text : String) (x y : ℚ)
  deriving DecidableEq, Repr

/-- Conversion of a number to a Web IDL `unsigned long`: truncation toward zero, then
reduction modulo `2^32`. -/
def toUnsignedLong (x : ℚ) : Nat :=
  ((if 0 ≤ x then ⌊x⌋ else -⌊-x⌋) % 4294967296).toNat

/-- Assignment of a number to the reflected `unsigned long` attribute `canvas.width` or
`canvas.height`: a converted value above `2147483647` is replaced by the attribute's default
`fallback`. -/
def reflectUnsignedLong (fallback : Nat) (x : ℚ) : Nat :=
  if toUnsignedLong x ≤ 2147483647 then toUnsignedLong x else fallback

/-- The closure state of `prepareCanvas`: its `let` variables (`width`, `height`, `dpr`,
`padding`, `radiusDesired`, `radius`, `lastValue`), the size attributes of the canvas
element (unsigned integers), its CSS size in pixels, and the calls made on `ctx` so far. -/
structure Renderer where
  width : ℚ
  height : ℚ
  dpr : ℚ
  padding : ℚ
  radiusDesired : ℚ
  radius : ℚ
  lastValue : Option (List Bool)
  canvasWidth : Nat
  canvasHeight : Nat
  styleWidth : Option ℚ
  styleHeight : Option ℚ
  calls : List CtxCall
  deriving DecidableEq, Repr

/-- The constant `rows = 8`. -/
def rows : Nat := 8

/-- The constant `dotsPerRow = 256 / 8`. -/
def dotsPerRow : Nat := 256 / 8

/-- The constant `leftMargin = 22`. -/
def leftMargin : ℚ := 22

/-- The closure state right after the declarations of `prepareCanvas`, before the first
`fixCanvasSize`; a new canvas element is 300 by 150. -/
def initialRenderer : Renderer where
  width := 100
  height := 100
  dpr := 1
  padding := 10
  radiusDesired := 4
  radius := 4
  lastValue := none
  canvasWidth := 300
  canvasHeight := 150
  styleWidth := none
  styleHeight := none
  calls := []

/-- The function `fixCanvasSize(newWidth)` when `window.devicePixelRatio` reads `devicePixelRatio`. -/
def fixCanvasSize (s : Renderer) (devicePixelRatio newWidth : ℚ) : Renderer :=
  let dpr := if devicePixelRatio = 0 then 1 else devicePixelRatio
  let width := newWidth * dpr
  let radiusDesired : ℚ := if newWidth > 440 then 5 else 4
  let radius := radiusDesired * dpr
  let totalWidthOfDots := (dotsPerRow : ℚ) * radius * 2
  let leftOver := width - totalWidthOfDots - leftMargin * dpr
  let padding := leftOver / ((dotsPerRow : ℚ) + 1 + 2)
  let height := (rows : ℚ) * (radius * 2 + padding) + padding
  { s with
    dpr := dpr
    width := width
    radiusDesired := radiusDesired
    radius := radius
    canvasWidth := reflectUnsignedLong 300 width
    styleWidth := some newWidth
    padding := padding
    height := height
    canvasHeight := reflectUnsignedLong 150 height
    styleHeight := some (height / dpr) }

/-- The centre `(x, y)` computed by `renderCircle(col, row)`. -/
def circleCentre (s : Renderer) (col row : Nat) : ℚ × ℚ :=
  let col_adjusted : ℚ := (col : ℚ) + ((col / 8 : Nat) : ℚ) / 4
  let paddingShift := s.padding / 2 + s.radius
  let x := col_adjusted * (s.radius * 2 + s.padding) + 1 / 2 + paddingShift + leftMargin * s.dpr
  let y := (row : ℚ) * (s.radius * 2 + s.padding) + 1 / 2 + paddingShift
  (x, y)

/-- The function `renderCircle(col, row)`: `ctx.moveTo(x, y)` then `ctx.arc(x, y, radius, 0, 2 * Math.PI)`. -/
def renderCircle (s : Renderer) (col row : Nat) : Renderer :=
  let c := circleCentre s col row
  { s with calls := s.calls ++ [.moveTo c.1 c.2, .arc c.1 c.2 s.radius] }

/-- The function `renderNumbers()`. -/
def renderNumbers (s : Renderer) : Renderer :=
  let textLeft := 20 * s.dpr
  { s with calls := s.calls ++
      [.setFillStyle "rgba(255, 255, 255, .6)",
       .setFont (s.dpr * 10),
       .setTextAlign "right",
       .fillText "256" textLeft ((s.padding + 2 * s.radius) * 1 - 1 * s.dpr),
       .fillText "192" textLeft ((s.padding + 2 * s.radius) * 3 - 1 * s.dpr),
       .fillText "128" textLeft ((s.padding + 2 * s.radius) * 5 - 1 * s.dpr),
       .fillText "64" textLeft ((s.padding + 2 * s.radius) * 7 - 2 * s.dpr)] }

/-- One iteration of `for (const pass of [true, false])` in `update`: a new path, a circle for
every position whose entry `value[ind]` is strictly equal to `pass`, then one `fill`. -/
def drawPass (value : List Bool) (s : Renderer) (pass : Bool) : Renderer :=
  let s1 := { s with calls := s.calls ++ [.beginPath] }
  let s2 := (List.range rows).foldl
    (fun acc row =>
      (List.range dotsPerRow).foldl
        (fun acc col =>
          let ind := row * dotsPerRow + col
          if value[ind]? = some pass then renderCircle acc col row else acc)
        acc)
    s1
  { s2 with calls := s2.calls ++
      [.setFillStyle (if pass then "white" else "rgba(255, 255, 255, .2)"), .fill] }

/-- The function `update(value)`. -/
def update (s : Renderer) (value : List Bool) : Renderer :=
  let s1 := { s with lastValue := some value }
  let s2 := { s1 with calls := s1.calls ++
      [.setFillStyle "black", .clearRect 0 0 s1.width s1.height] }
  let s3 := [true, false].foldl (drawPass value) s2
  renderNumbers s3

/-- The body of the `for (const entry of entries)` loop of the `ResizeObserver` callback, for
an entry whose `contentRect.width` is `entryWidth`: `lastValue` is truthy exactly when it is
not `null`. -/
def resizeEntry (devicePixelRatio : ℚ) (s : Renderer) (entryWidth : ℚ) : Renderer :=
  let s1 := fixCanvasSize s devicePixelRatio entryWidth
  match s1.lastValue with
  | some lastValue => update s1 lastValue
  | none => s1

/-- The `ResizeObserver` callback on the widths of its `entries`. -/
def resizeObserver (devicePixelRatio : ℚ) (s : Renderer) (entries : List ℚ) : Renderer :=
  entries.foldl (resizeEntry devicePixelRatio) s

/-- The function `prepareCanvas(parent)` up to and including `fixCanvasSize(parent.clientWidth)`. -/
def prepareCanvas (devicePixelRatio clientWidth : ℚ) : Renderer :=
  fixCanvasSize initialRenderer devicePixelRatio clientWidth

/-- The circle of `renderCircle(col, row)` lies inside the canvas rectangle
`[0, width] x [0, height]`. -/
def dotInsideCanvas (s : Renderer) (col row : Nat) : Prop :=
  0 ≤ (circleCentre s col row).1 - s.radius ∧
  (circleCentre s col row).1 + s.radius ≤ s.width ∧
  0 ≤ (circleCentre s col row).2 - s.radius ∧
  (circleCentre s col row).2 + s.radius ≤ s.height

instance (s : Renderer) (col row : Nat) : Decidable (dotInsideCanvas s col row) := by
  unfold dotInsideCanvas
  infer_instance

/-- The natural number a bit sequence denotes, most significant bit first. -/
def bitsValue (bits : List Bool) : Nat :=
  bits.foldl (fun acc b => 2 * acc + (if b then 1 else 0)) 0

/-- Floor division, the quotient rounded toward negative infinity. -/
def floorDiv (a b : Int) : Int := Int.fdiv a b

/-- The same closure state with `c` added at the end of the call log. -/
def appendCalls (s : Renderer) (c : List CtxCall) : Renderer :=
  { s with calls := s.calls ++ c }

/-! ### The redraw in the words of the specification

Follows the spec's words (section 4.2, geometry and drawing algorithm), as functions of the
CSS width `W` and the device pixel ratio `D` only; compared below with `update` after
`fixCanvasSize`. -/

/-- Follows the spec's words: the radius is 5 CSS pixels if the CSS width exceeds 440, else
4, scaled by the device pixel ratio. -/
def specRadius (W D : ℚ) : ℚ := (if W > 440 then 5 else 4) * D

/-- Follows the spec's words: the leftover horizontal space (effective width minus the 32 dot
diameters minus the left margin of 22 CSS pixels) divided by columns-per-row + 3. -/
def specPadding (W D : ℚ) : ℚ := (W * D - 32 * (2 * specRadius W D) - 22 * D) / (32 + 3)

/-- Follows the spec's words: surface height = rows x (2 x radius + padding) + padding. -/
def specHeight (W D : ℚ) : ℚ := 8 * (2 * specRadius W D + specPadding W D) + specPadding W D

/-- Follows the spec's words: the dot of a (row, column) position, a full circle of the
effective radius; columns are positioned at `col + floor(col/8)/4` cell widths, after the
left margin, half a padding and half a pixel. -/
def specDot (W D : ℚ) (row col : Nat) : List CtxCall :=
  let cell := 2 * specRadius W D + specPadding W D
  let x := ((col : ℚ) + ((col / 8 : Nat) : ℚ) / 4) * cell + 22 * D + specPadding W D / 2 +
    specRadius W D + 1 / 2
  let y := (row : ℚ) * cell + specPadding W D / 2 + specRadius W D + 1 / 2
  [.moveTo x y, .arc x y (specRadius W D)]

/-- Follows the spec's words: one pass over all (row, column) positions, drawing the dots
whose bit equals `bit`, accumulated into a single path and filled once. -/
def specPass (W D : ℚ) (bits : List Bool) (bit : Bool) : List CtxCall :=
  [.beginPath] ++
  (List.range 8).flatMap (fun row =>
    (List.range 32).flatMap (fun col =>
      if bits[row * 32 + col]? = some bit then specDot W D row col else [])) ++
  [.setFillStyle (if bit then "white" else "rgba(255, 255, 255, .2)"), .fill]

/-- Follows the spec's words: the axis labels 256, 192, 128, 64, right-aligned at 20 CSS
pixels, at the hand-picked vertical offsets of rows 0, 2, 4, 6. -/
def specNumbers (W D : ℚ) : List CtxCall :=
  [.setFillStyle "rgba(255, 255, 255, .6)",
   .setFont (10 * D),
   .setTextAlign "right",
   .fillText "256" (20 * D) (1 * (2 * specRadius W D + specPadding W D) - D),
   .fillText "192" (20 * D) (3 * (2 * specRadius W D + specPadding W D) - D),
   .fillText "128" (20 * D) (5 * (2 * specRadius W D + specPadding W D) - D),
   .fillText "64" (20 * D) (7 * (2 * specRadius W D + specPadding W D) - 2 * D)]

/-- Follows the spec's words: a redraw clears the surface, draws the `true` bits in the
first pass and the `false` bits in the second, dimmer pass, then the axis labels. -/
def specRedraw (W D : ℚ) (bits : List Bool) : List CtxCall :=
  [.setFillStyle "black", .clearRect 0 0 (W * D) (specHeight W D)] ++
  specPass W D bits true ++ specPass W D bits false ++ specNumbers W D

/-- The geometry variables of a closure state are those of CSS width `W` at device pixel
ratio `D`. -/
def HasGeometry (W D : ℚ) (s : Renderer) : Prop :=
  s.dpr = D ∧ s.width = W * D ∧ s.radius = specRadius W D ∧
  s.padding = specPadding W D ∧ s.height = specHeight W D

/-! ## Facts about the value source -/

theorem bigIntDiv_of_nonneg {a b : Int} (ha : 0 ≤ a) (hb : 0 ≤ b) : bigIntDiv a b = a / b := by
  unfold bigIntDiv
  exact Int.tdiv_eq_ediv ha hb

theorem bigIntDiv_of_neg {a b : Int} (ha : a < 0) (hb : 0 ≤ b) :
    bigIntDiv a b = -((-a) / b) := by
  unfold bigIntDiv
  have h : a.tdiv b = -((-a).tdiv b) := by rw [Int.neg_tdiv, neg_neg]
  rw [h, Int.tdiv_eq_ediv (by omega) hb]

theorem natBinaryAux_length (fuel n : Nat) (h : n < fuel) :
    (natBinaryAux fuel n).length = Nat.log 2 n + 1 := by
  induction fuel generalizing n with
  | zero => omega
  | succ fuel ih =>
    unfold natBinaryAux
    by_cases h2 : n < 2
    · rw [if_pos h2, Nat.log_of_lt h2]
      rfl
    · have hlog : Nat.log 2 n = Nat.log 2 (n / 2) + 1 :=
        Nat.log_of_one_lt_of_le (by decide) (by omega)
      rw [if_neg h2, List.length_append, ih (n / 2) (by omega), hlog]
      rfl

theorem natBinary_length (n : Nat) : (natBinary n).length = Nat.log 2 n + 1 :=
  natBinaryAux_length (n + 1) n (Nat.lt_succ_self n)

theorem natBinary_length_le {n k : Nat} (hk : 1 ≤ k) (h : n < 2 ^ k) :
    (natBinary n).length ≤ k := by
  rw [natBinary_length]
  by_cases h0 : n = 0
  · subst h0; simpa using hk
  · have := Nat.log_lt_of_lt_pow h0 h
    omega

theorem natBinary_length_gt {n k : Nat} (h : 2 ^ k ≤ n) : k < (natBinary n).length := by
  rw [natBinary_length]
  have := Nat.le_log_of_pow_le (by decide : 1 < 2) h
  omega

theorem natBinaryAux_digits (fuel n : Nat) :
    ∀ c ∈ natBinaryAux fuel n, c = '0' ∨ c = '1' := by
  induction fuel generalizing n with
  | zero => intro c hc; simp [natBinaryAux] at hc
  | succ fuel ih =>
    intro c hc
    unfold natBinaryAux at hc
    split at hc
    · simp only [List.mem_singleton] at hc
      subst hc
      unfold binDigitChar
      split <;> simp
    · rcases List.mem_append.1 hc with hc | hc
      · exact ih _ c hc
      · simp only [List.mem_singleton] at hc
        subst hc
        unfold binDigitChar
        split <;> simp

theorem natBinary_digits (n : Nat) : ∀ c ∈ natBinary n, c = '0' ∨ c = '1' :=
  natBinaryAux_digits (n + 1) n

theorem bitsValue_append_singleton (l : List Bool) (b : Bool) :
    bitsValue (l ++ [b]) = 2 * bitsValue l + (if b then 1 else 0) := by
  simp [bitsValue, List.foldl_append]

theorem binDigitChar_eq_one (d : Nat) : (binDigitChar d == '1') = decide (d ≠ 0) := by
  unfold binDigitChar
  by_cases h : d = 0 <;> simp [h]

theorem natBinaryAux_value (fuel n : Nat) (h : n < fuel) :
    bitsValue ((natBinaryAux fuel n).map (fun e => e == '1')) = n := by
  induction fuel generalizing n with
  | zero => omega
  | succ fuel ih =>
    unfold natBinaryAux
    by_cases h2 : n < 2
    · have hn : n = 0 ∨ n = 1 := by omega
      rcases hn with rfl | rfl <;> simp [bitsValue, binDigitChar]
    · simp only [h2, if_false, List.map_append, List.map_cons, List.map_nil]
      rw [bitsValue_append_singleton, ih (n / 2) (by omega), binDigitChar_eq_one]
      by_cases hm : n % 2 = 0
      · simp [hm]; omega
      · simp [hm]; omega

theorem natBinary_value (n : Nat) : bitsValue ((natBinary n).map (fun e => e == '1')) = n :=
  natBinaryAux_value (n + 1) n (Nat.lt_succ_self n)

theorem bitsValue_replicate_false_append (k : Nat) (l : List Bool) :
    bitsValue (List.replicate k false ++ l) = bitsValue l := by
  induction k with
  | zero => simp
  | succ k ih =>
    have hstep : bitsValue (false :: (List.replicate k false ++ l)) =
        bitsValue (List.replicate k false ++ l) := by
      simp [bitsValue]
    simpa [List.replicate_succ] using hstep.trans ih

theorem toString2_of_nonneg {total : Int} (h : 0 ≤ total) :
    toString2 total = natBinary total.natAbs := by
  unfold toString2
  simp [not_lt.2 h]

theorem toString2_of_neg {total : Int} (h : total < 0) :
    toString2 total = '-' :: natBinary total.natAbs := by
  unfold toString2
  simp [h]

theorem asArray_of_neg {total : Int} (h : total < 0) :
    asArray total = false :: asArray (-total) := by
  unfold asArray
  rw [toString2_of_neg h, toString2_of_nonneg (by omega : (0 : Int) ≤ -total)]
  simp

theorem asArray_length_of_nonneg {total : Int} (h : 0 ≤ total) :
    (asArray total).length = Nat.log 2 total.natAbs + 1 := by
  unfold asArray
  rw [toString2_of_nonneg h, List.length_map, natBinary_length]

theorem fillTo_ok {origin : List Bool} {base : Nat} (h : origin.length ≤ base)
    (hb : base ≤ maxArrayLength) :
    fillTo origin base = .ok (List.replicate (base - origin.length) false ++ origin) := by
  unfold fillTo
  have hlen : ((base : Int) - (origin.length : Int)).toNat = base - origin.length := by omega
  simp only [hlen, List.length_replicate]
  rw [if_neg (by omega), if_neg (by omega)]

theorem fillTo_error {origin : List Bool} {base : Nat} (h : base < origin.length) :
    fillTo origin base = .error .rangeError := by
  unfold fillTo
  simp only
  rw [if_pos (Or.inl (by omega))]

theorem fillTo_error_of_large {origin : List Bool} {base : Nat} (h : maxArrayLength < base) :
    fillTo origin base = .error .rangeError := by
  unfold fillTo
  have hlen : ((base : Int) - (origin.length : Int)).toNat = base - origin.length := by omega
  simp only [hlen, List.length_replicate]
  split
  · rfl
  · rw [if_pos (by omega)]

theorem fillTo_length {origin bits : List Bool} {base : Nat}
    (h : fillTo origin base = .ok bits) : bits.length = base := by
  by_cases h1 : base < origin.length
  · rw [fillTo_error h1] at h
    cases h
  · by_cases h2 : maxArrayLength < base
    · rw [fillTo_error_of_large h2] at h
      cases h
    · rw [fillTo_ok (by omega) (by omega)] at h
      injection h with h
      subst h
      simp
      omega

theorem totalBits_ok_iff (total : Int) (base : Nat) :
    (∃ bits, totalBits total base = .ok bits) ↔
      (toString2 total).length ≤ base ∧ base ≤ maxArrayLength := by
  have hlen : (asArray total).length = (toString2 total).length := by simp [asArray]
  constructor
  · rintro ⟨bits, h⟩
    by_contra hlt
    by_cases h1 : base < (asArray total).length
    · rw [totalBits, fillTo_error h1] at h
      cases h
    · rw [totalBits, fillTo_error_of_large (by omega)] at h
      cases h
  · intro h
    exact ⟨_, by rw [totalBits, fillTo_ok (by omega) h.2]⟩

theorem bigIntDiv_thousand_bounds {a c : Int} (h1 : -(1000 * c) < a) (h2 : a < 1000 * c) :
    -c < bigIntDiv a 1000 ∧ bigIntDiv a 1000 < c := by
  by_cases ha : 0 ≤ a
  · rw [bigIntDiv_of_nonneg ha (by decide)]
    omega
  · rw [bigIntDiv_of_neg (by omega) (by decide)]
    omega

theorem toString2_length_le {total : Int} {k : Nat} (hk : 1 ≤ k)
    (h1 : -(2 ^ k) < total) (h2 : total < 2 ^ k) : (toString2 total).length ≤ k + 1 := by
  have hn : total.natAbs < 2 ^ k := by
    have h3 : ((total.natAbs : Nat) : Int) < ((2 ^ k : Nat) : Int) := by
      push_cast
      exact abs_lt.2 ⟨h1, h2⟩
    exact_mod_cast h3
  have hle := natBinary_length_le hk hn
  unfold toString2
  split
  · simp only [List.length_cons]
    omega
  · omega

theorem log_two_pow (k : Nat) : Nat.log 2 (2 ^ k) = k := Nat.log_pow (by omega) k

theorem natBinary_two_pow_length (k : Nat) : (natBinary (2 ^ k)).length = k + 1 := by
  rw [natBinary_length, log_two_pow]

theorem asArray_two_pow_length (k : Nat) : (asArray ((2 : Int) ^ k)).length = k + 1 := by
  rw [asArray_length_of_nonneg (by positivity), Int.natAbs_pow]
  have h2 : (2 : Int).natAbs = 2 := rfl
  rw [h2, log_two_pow]

theorem totalBits_two_pow_throws (k : Nat) : totalBits (2 ^ k) k = .error .rangeError :=
  fillTo_error (by rw [asArray_two_pow_length]; omega)

theorem totalBits_two_pow_ok (k : Nat) (hk : k + 1 ≤ maxArrayLength) :
    totalBits (2 ^ k) (k + 1) = .ok (asArray (2 ^ k)) := by
  rw [totalBits, fillTo_ok (by rw [asArray_two_pow_length]) hk]
  simp [asArray_two_pow_length]

theorem loopTotal_bounds (pageLoad dateNow : Int) (sh : ShiftName) (sp : SpeedName)
    (hp1 : -(2 ^ 208) ≤ pageLoad) (hp2 : pageLoad ≤ 2 ^ 208)
    (ht1 : 0 ≤ dateNow) (ht2 : dateNow ≤ 2 ^ 208) :
    -(2 ^ 255) < loopTotal pageLoad sh sp dateNow ∧
      loopTotal pageLoad sh sp dateNow < 2 ^ 255 := by
  unfold loopTotal
  apply bigIntDiv_thousand_bounds <;>
    cases sh <;> cases sp <;>
    simp only [shifts, speeds, secInYear, secInDay, i7, gpu, asic, google] <;> omega

theorem totalBits_neg_two_pow_throws (k : Nat) :
    totalBits (-(2 ^ k)) (k + 1) = .error .rangeError := by
  have hneg : -((2 : Int) ^ k) < 0 := by
    have : (0 : Int) < 2 ^ k := by positivity
    omega
  refine fillTo_error ?_
  rw [asArray_of_neg hneg, neg_neg, List.length_cons, asArray_two_pow_length]
  omega

/-! ## Claims on the value source -/

/-- C1: for every one of the 3 x 5 named shift/speed pairs, every page-load instant and
every non-negative `currentTimeMillis` (both time values of `Date`, which is what
`+new Date()` and `Date.now()` return), the bit computation of `loop` returns a sequence
of exactly `bitWidth = 256` booleans. -/
theorem loopBits_length (pageLoad dateNow : Int) (sh : ShiftName) (sp : SpeedName)
    (hp : isTimeValue pageLoad) (ht : isTimeValue dateNow) (h0 : 0 ≤ dateNow) :
    ∃ bits, loopBits pageLoad sh sp dateNow = .ok bits ∧ bits.length = 256 := by
  unfold isTimeValue maxTimeValue at hp ht
  have hb := loopTotal_bounds pageLoad dateNow sh sp (by omega) (by omega) h0 (by omega)
  have hs := toString2_length_le (k := 255) (by decide) hb.1 hb.2
  obtain ⟨bits, hbits⟩ := (totalBits_ok_iff _ 256).2 ⟨hs, by decide⟩
  exact ⟨bits, hbits, fillTo_length hbits⟩

/-- C1 witness for `loopBits_length` at `pageloaded`/`google`, with a page load before 1970
and the current time at the end of the `Date` range. -/
theorem loopBits_length_witness :
    isTimeValue (-8640000000000000) ∧ isTimeValue 8640000000000000 ∧
    ∃ bits, loopBits (-8640000000000000) .pageloaded .google 8640000000000000 = .ok bits ∧
      bits.length = 256 :=
  ⟨by decide, by decide,
    loopBits_length (-8640000000000000) 8640000000000000 .pageloaded .google
      (by decide) (by decide) (by decide)⟩

/-- C2 (counterexample): `total = 0` has the one-digit representation `"0"`, yet at
`bitWidth = 4294967297` the call `new Array(4294967296)` in `fillTo` throws a `RangeError`:
no padded sequence is returned. -/
theorem totalBits_huge_width_throws :
    (0 : Int) ≤ 0 ∧ (toString2 0).length ≤ 4294967297 ∧
    totalBits 0 4294967297 = .error .rangeError :=
  ⟨by decide, by decide, fillTo_error_of_large (by decide)⟩

/-- C2 (amended): for a non-negative counter whose binary representation has length
`L ≤ bitWidth`, and a `bitWidth` of at most `2^32 - 1` (the largest array length),
`fillTo(bits(total), bitWidth)` returns `bitWidth` entries whose last `L` are the binary
digits (`true` for `'1'`, `false` for `'0'`) and whose first `bitWidth - L` are `false`;
the digits are all `'0'` or `'1'` and the sequence denotes `total`. -/
theorem totalBits_left_padding (total : Int) (bitWidth : Nat) (h0 : 0 ≤ total)
    (hL : (toString2 total).length ≤ bitWidth) (hW : bitWidth ≤ maxArrayLength) :
    ∃ bits, totalBits total bitWidth = .ok bits ∧ bits.length = bitWidth ∧
      bits.drop (bitWidth - (toString2 total).length) =
        (toString2 total).map (fun e => e == '1') ∧
      bits.take (bitWidth - (toString2 total).length) =
        List.replicate (bitWidth - (toString2 total).length) false ∧
      (∀ c ∈ toString2 total, c = '0' ∨ c = '1') ∧
      (bitsValue bits : Int) = total := by
  have hlen : (asArray total).length = (toString2 total).length := by simp [asArray]
  refine ⟨List.replicate (bitWidth - (asArray total).length) false ++ asArray total,
    ?_, ?_, ?_, ?_, ?_, ?_⟩
  · rw [totalBits, fillTo_ok (by omega) hW]
  · simp
    omega
  · rw [hlen, List.drop_left' (by simp)]
    rfl
  · rw [hlen, List.take_left' (by simp)]
  · rw [toString2_of_nonneg h0]
    exact natBinary_digits _
  · rw [bitsValue_replicate_false_append]
    unfold asArray
    rw [toString2_of_nonneg h0, natBinary_value]
    omega

/-- C2 witness for `totalBits_left_padding` at `total = 5`, `bitWidth = 8`. -/
theorem totalBits_left_padding_witness :
    ∃ bits, totalBits 5 8 = .ok bits ∧ bits.length = 8 ∧
      bits.drop (8 - (toString2 5).length) = (toString2 5).map (fun e => e == '1') ∧
      bits.take (8 - (toString2 5).length) = List.replicate (8 - (toString2 5).length) false ∧
      (∀ c ∈ toString2 5, c = '0' ∨ c = '1') ∧
      (bitsValue bits : Int) = 5 :=
  totalBits_left_padding 5 8 (by decide) (by decide) (by decide)

/-- C3 (counterexample): `total = 2^256` has 257 binary digits; at `bitWidth = 256` the bit
computation throws a `RangeError`, it does not return the low 256 bits. -/
theorem totalBits_two_pow_256_throws :
    (natBinary (2 ^ 256)).length = 257 ∧
    totalBits (2 ^ 256) 256 = .error .rangeError :=
  ⟨natBinary_two_pow_length 256, totalBits_two_pow_throws 256⟩

/-- C3 (amended): whenever the binary representation of the magnitude of `total` has
length `L > bitWidth`, the bit computation throws a `RangeError` and returns no sequence;
this is the case for every `total` with `2^bitWidth ≤ |total|`. -/
theorem totalBits_throws_of_long (total : Int) (bitWidth : Nat) :
    (bitWidth < (natBinary total.natAbs).length →
      totalBits total bitWidth = .error .rangeError) ∧
    (2 ^ bitWidth ≤ total.natAbs → bitWidth < (natBinary total.natAbs).length) := by
  refine ⟨fun hL => fillTo_error ?_, natBinary_length_gt⟩
  have hlen : (asArray total).length = (toString2 total).length := by simp [asArray]
  rw [hlen]
  unfold toString2
  split
  · simp only [List.length_cons]
    omega
  · exact hL

/-- C3 witness for `totalBits_throws_of_long` at `total = 4` (`"100"`), `bitWidth = 2`. -/
theorem totalBits_throws_of_long_witness :
    2 < (natBinary (4 : Int).natAbs).length ∧ totalBits 4 2 = .error .rangeError :=
  ⟨by decide, (totalBits_throws_of_long 4 2).1 (by decide)⟩

/-- C4 (counterexample): one millisecond before the page-load instant (`pageloaded`, `sec`)
the counter is `-1 / 1000n = 0`, while the floor of `-1/1000` is `-1`. -/
theorem loopTotal_not_floor :
    loopTotal 1 .pageloaded .sec 0 = 0 ∧
    floorDiv ((shifts 1 .pageloaded + 0) * speeds .sec) 1000 = -1 := by
  decide

/-- C4 (amended): the counter of `loop` is `((shift + t) * speed) / 1000` rounded toward
zero: it is the floor when `shift + t ≥ 0` and the ceiling (minus the floor of the negated
quotient) when `shift + t < 0`. -/
theorem loopTotal_rounding (pageLoad t : Int) (sh : ShiftName) (sp : SpeedName) :
    (0 ≤ shifts pageLoad sh + t →
      loopTotal pageLoad sh sp t = floorDiv ((shifts pageLoad sh + t) * speeds sp) 1000) ∧
    (shifts pageLoad sh + t < 0 →
      loopTotal pageLoad sh sp t =
        -floorDiv (-((shifts pageLoad sh + t) * speeds sp)) 1000) := by
  have hsp : 0 < speeds sp := by cases sp <;> decide
  constructor
  · intro h
    have hnum : 0 ≤ (shifts pageLoad sh + t) * speeds sp := Int.mul_nonneg h hsp.le
    unfold loopTotal floorDiv
    rw [bigIntDiv_of_nonneg hnum (by decide), Int.fdiv_eq_ediv _ (by decide)]
  · intro h
    have hnum : (shifts pageLoad sh + t) * speeds sp < 0 := Int.mul_neg_of_neg_of_pos h hsp
    unfold loopTotal floorDiv
    rw [bigIntDiv_of_neg hnum (by decide), Int.fdiv_eq_ediv _ (by decide)]

/-- C4 witness for `loopTotal_rounding`: 2500 ms after page load the counter is the floor 2;
2500 ms before page load it is the ceiling -2. -/
theorem loopTotal_rounding_witness :
    (0 ≤ shifts 0 .pageloaded + 2500 ∧
      loopTotal 0 .pageloaded .sec 2500 =
        floorDiv ((shifts 0 .pageloaded + 2500) * speeds .sec) 1000) ∧
    (shifts 2500 .pageloaded + 0 < 0 ∧
      loopTotal 2500 .pageloaded .sec 0 =
        -floorDiv (-((shifts 2500 .pageloaded + 0) * speeds .sec)) 1000) :=
  ⟨⟨by decide, (loopTotal_rounding 0 2500 .pageloaded .sec).1 (by decide)⟩,
    ⟨by decide, (loopTotal_rounding 2500 0 .pageloaded .sec).2 (by decide)⟩⟩

/-- The `ad` shift, a number of seconds, is added to `Date.now()`, a number of milliseconds,
before the division by 1000: at `Date.now() = 0` with `ad`/`sec` the counter is 62125920, a
thousandth of the 1970 years in seconds, for every page-load instant. -/
theorem loopTotal_ad_at_epoch (pageLoad : Int) :
    shifts pageLoad .ad = 62125920000 ∧ loopTotal pageLoad .ad .sec 0 = 62125920 := by
  have hs : shifts pageLoad .ad = 62125920000 := by
    simp only [shifts, secInYear, secInDay]
    decide
  refine ⟨hs, ?_⟩
  unfold loopTotal
  rw [hs]
  decide

/-- C5 (counterexample): `total = -2^255` has a magnitude of exactly 256 binary digits; the
bit computation at `bitWidth = 256` throws a `RangeError`, while `|total| = 2^255` yields a
256-entry sequence. -/
theorem negative_full_width_throws :
    -((2 : Int) ^ 255) < 0 ∧
    (natBinary (-((2 : Int) ^ 255)).natAbs).length = 256 ∧
    totalBits (-(2 ^ 255)) 256 = .error .rangeError ∧
    totalBits (2 ^ 255) 256 = .ok (asArray (2 ^ 255)) := by
  refine ⟨by omega, ?_, totalBits_neg_two_pow_throws 255,
    totalBits_two_pow_ok 255 (by decide)⟩
  rw [Int.natAbs_neg, Int.natAbs_pow]
  exact natBinary_two_pow_length 255

/-- C5 (amended): for every negative counter whose magnitude has a binary representation of
length `L < bitWidth`, the bit computation has exactly the outcome it has for `|total|`
(the minus sign becomes one more `false`); when moreover `bitWidth` is at most `2^32 - 1`,
the largest array length, that outcome is a returned sequence of length `bitWidth`. -/
theorem totalBits_negative (total : Int) (bitWidth : Nat) (hneg : total < 0)
    (hL : (natBinary total.natAbs).length < bitWidth) :
    totalBits total bitWidth = totalBits (-total) bitWidth ∧
    (bitWidth ≤ maxArrayLength →
      ∃ bits, totalBits total bitWidth = .ok bits ∧ bits.length = bitWidth) := by
  have hlen : (asArray (-total)).length = (natBinary total.natAbs).length := by
    unfold asArray
    rw [toString2_of_nonneg (by omega), List.length_map, Int.natAbs_neg]
  have hpad : bitWidth - (asArray (-total)).length =
      (bitWidth - (asArray (-total)).length - 1) + 1 := by omega
  have heq : totalBits total bitWidth = totalBits (-total) bitWidth := by
    unfold totalBits
    by_cases hW : bitWidth ≤ maxArrayLength
    · rw [asArray_of_neg hneg, fillTo_ok (by simp only [List.length_cons]; omega) hW,
        fillTo_ok (by omega) hW, List.length_cons]
      congr 1
      rw [hpad, List.replicate_succ', List.append_assoc]
      simp only [List.singleton_append]
      congr 2
    · rw [fillTo_error_of_large (by omega), fillTo_error_of_large (by omega)]
  refine ⟨heq, fun hW => ⟨_, heq.trans (by rw [totalBits, fillTo_ok (by omega) hW]), ?_⟩⟩
  simp
  omega

/-- C5 witness for `totalBits_negative` at `total = -5`, `bitWidth = 8`. -/
theorem totalBits_negative_witness :
    (-5 : Int) < 0 ∧ (natBinary (-5 : Int).natAbs).length < 8 ∧
    totalBits (-5) 8 = totalBits (-(-5)) 8 ∧
    ∃ bits, totalBits (-5) 8 = .ok bits ∧ bits.length = 8 :=
  ⟨by decide, by decide, (totalBits_negative (-5) 8 (by decide) (by decide)).1,
    (totalBits_negative (-5) 8 (by decide) (by decide)).2 (by decide)⟩

/-- C6 (counterexample): with page load at 1000 ms, `pageloaded`/`sec` and
`currentTimeMillis = 5000`, the shift is `-1000`, the counter is 4 and the sequence ends in
`true, false, false`. -/
theorem loopBits_pageloaded_not_zero_offset :
    shifts 1000 .pageloaded = -1000 ∧
    loopTotal 1000 .pageloaded .sec 5000 = 4 ∧
    loopBits 1000 .pageloaded .sec 5000 =
      .ok (List.replicate 253 false ++ [true, false, false]) := by
  have ht : loopTotal 1000 .pageloaded .sec 5000 = 4 := by decide
  have ha : asArray 4 = [true, false, false] := by decide
  refine ⟨by decide, ht, ?_⟩
  unfold loopBits totalBits
  rw [ht, ha, fillTo_ok (by decide) (by decide)]
  rfl

/-- C6 (amended): the `pageloaded` shift is minus the page-load instant; with
`shift = pageloaded`, `speed = sec`, `bitWidth = 256` and `currentTimeMillis` 5000 ms after
the page-load instant, the counter is 5 and the sequence has 256 entries, 253 times `false`
followed by `true, false, true` - for every page-load instant. -/
theorem loopBits_five_seconds_after_load (pageLoad : Int) :
    shifts pageLoad .pageloaded = -pageLoad ∧
    loopTotal pageLoad .pageloaded .sec (pageLoad + 5000) = 5 ∧
    loopBits pageLoad .pageloaded .sec (pageLoad + 5000) =
      .ok (List.replicate 253 false ++ [true, false, true]) ∧
    (List.replicate 253 false ++ [true, false, true]).length = 256 := by
  have ht : loopTotal pageLoad .pageloaded .sec (pageLoad + 5000) = 5 := by
    unfold loopTotal
    have h : (shifts pageLoad .pageloaded + (pageLoad + 5000)) * speeds .sec = 5000 := by
      simp only [shifts, speeds]
      omega
    rw [h]
    decide
  have ha : asArray 5 = [true, false, true] := by decide
  refine ⟨rfl, ht, ?_, by rw [List.length_append, List.length_replicate]; rfl⟩
  unfold loopBits totalBits
  rw [ht, ha, fillTo_ok (by decide) (by decide)]
  rfl

/-- C9: for every named shift/speed pair and page-load and current times in the `Date`
range `0 ≤ ms ≤ 8640000000000000`, the counter satisfies `|total| < 2^105`, the string
`total.toString(2)` has at most 256 characters, the length `256 - origin.length` passed to
`new Array` is not negative, and `loop` obtains exactly 256 entries. -/
theorem loopBits_date_range (pageLoad dateNow : Int) (sh : ShiftName) (sp : SpeedName)
    (hp0 : 0 ≤ pageLoad) (hp1 : pageLoad ≤ 8640000000000000)
    (ht0 : 0 ≤ dateNow) (ht1 : dateNow ≤ 8640000000000000) :
    |loopTotal pageLoad sh sp dateNow| < 2 ^ 105 ∧
    (toString2 (loopTotal pageLoad sh sp dateNow)).length ≤ 256 ∧
    0 ≤ (selectedBase : Int) - ((asArray (loopTotal pageLoad sh sp dateNow)).length : Int) ∧
    ∃ bits, loopBits pageLoad sh sp dateNow = .ok bits ∧ bits.length = 256 := by
  have hb : -(2 ^ 105) < loopTotal pageLoad sh sp dateNow ∧
      loopTotal pageLoad sh sp dateNow < 2 ^ 105 := by
    unfold loopTotal
    apply bigIntDiv_thousand_bounds <;>
      cases sh <;> cases sp <;>
      simp only [shifts, speeds, secInYear, secInDay, i7, gpu, asic, google] <;> omega
  have hs := toString2_length_le (k := 105) (by decide) hb.1 hb.2
  have hs256 : (toString2 (loopTotal pageLoad sh sp dateNow)).length ≤ 256 := by omega
  have hlen : (asArray (loopTotal pageLoad sh sp dateNow)).length =
      (toString2 (loopTotal pageLoad sh sp dateNow)).length := by simp [asArray]
  obtain ⟨bits, hbits⟩ := (totalBits_ok_iff _ 256).2 ⟨hs256, by decide⟩
  refine ⟨abs_lt.2 hb, hs256, ?_, bits, hbits, fillTo_length hbits⟩
  rw [hlen]
  simp only [selectedBase]
  omega

/-- C9 witness for `loopBits_date_range` at `universe`/`google` with both clocks at the end
of the `Date` range. -/
theorem loopBits_date_range_witness :
    |loopTotal 8640000000000000 .universe .google 8640000000000000| < 2 ^ 105 ∧
    (toString2 (loopTotal 8640000000000000 .universe .google 8640000000000000)).length
      ≤ 256 ∧
    0 ≤ (selectedBase : Int) -
      ((asArray (loopTotal 8640000000000000 .universe .google 8640000000000000)).length
        : Int) ∧
    ∃ bits, loopBits 8640000000000000 .universe .google 8640000000000000 = .ok bits ∧
      bits.length = 256 :=
  loopBits_date_range 8640000000000000 8640000000000000 .universe .google
    (by decide) (by decide) (by decide) (by decide)


/-! ## Claims on the grid renderer -/

theorem fixCanvasSize_fields (s : Renderer) (D W : ℚ) (hD : D ≠ 0) :
    (fixCanvasSize s D W).dpr = D ∧
    (fixCanvasSize s D W).width = W * D ∧
    (fixCanvasSize s D W).radius = (if W > 440 then 5 else 4) * D ∧
    (fixCanvasSize s D W).padding =
      ((fixCanvasSize s D W).width - 64 * (fixCanvasSize s D W).radius - 22 * D) / 35 ∧
    (fixCanvasSize s D W).height =
      8 * (2 * (fixCanvasSize s D W).radius + (fixCanvasSize s D W).padding) +
        (fixCanvasSize s D W).padding ∧
    (fixCanvasSize s D W).lastValue = s.lastValue ∧
    (fixCanvasSize s D W).calls = s.calls := by
  simp only [fixCanvasSize, if_neg hD, dotsPerRow, rows, leftMargin]
  refine ⟨trivial, trivial, trivial, ?_, ?_, trivial, trivial⟩
  · norm_num
    split <;> ring
  · norm_num
    split <;> ring

/-- C7 (counterexample): at CSS width 0 and device pixel ratio 1 the padding is `-278/35`
and the canvas height is `-262/35`, both negative. -/
theorem fixCanvasSize_zero_width_negative :
    (fixCanvasSize initialRenderer 1 0).padding = -278 / 35 ∧
    (fixCanvasSize initialRenderer 1 0).height = -262 / 35 ∧
    (fixCanvasSize initialRenderer 1 0).padding < 0 ∧
    (fixCanvasSize initialRenderer 1 0).height < 0 := by
  norm_num [fixCanvasSize, dotsPerRow, rows, leftMargin]

/-- C7 (amended): for every CSS width `W ≥ 0` and device pixel ratio `D > 0`, after
`fixCanvasSize(W)` the radius `(W > 440 ? 5 : 4) * D` and the width `W * D` are
non-negative; the padding `(width - 64 * radius - 22 * D) / 35` and the height
`8 * (2 * radius + padding) + padding` are positive whenever `W ≥ 279`; the padding is
negative whenever `W ≤ 277`, and the height is negative whenever `W ≤ 29` and positive
whenever `W ≥ 30`. -/
theorem fixCanvasSize_nonneg (s : Renderer) (W D : ℚ) (hW : 0 ≤ W) (hD : 0 < D) :
    (fixCanvasSize s D W).radius = (if W > 440 then 5 else 4) * D ∧
    (fixCanvasSize s D W).width = W * D ∧
    (fixCanvasSize s D W).padding =
      ((fixCanvasSize s D W).width - 64 * (fixCanvasSize s D W).radius - 22 * D) / 35 ∧
    (fixCanvasSize s D W).height =
      8 * (2 * (fixCanvasSize s D W).radius + (fixCanvasSize s D W).padding) +
        (fixCanvasSize s D W).padding ∧
    0 ≤ (fixCanvasSize s D W).radius ∧
    0 ≤ (fixCanvasSize s D W).width ∧
    (279 ≤ W → 0 < (fixCanvasSize s D W).padding ∧ 0 < (fixCanvasSize s D W).height) ∧
    (W ≤ 277 → (fixCanvasSize s D W).padding < 0) ∧
    (W ≤ 29 → (fixCanvasSize s D W).height < 0) ∧
    (30 ≤ W → 0 < (fixCanvasSize s D W).height) := by
  obtain ⟨-, hw, hr, hp, hh, -, -⟩ := fixCanvasSize_fields s D W hD.ne'
  have hpad : (fixCanvasSize s D W).padding =
      if W > 440 then (W - 342) * D / 35 else (W - 278) * D / 35 := by
    rw [hp, hw, hr]
    split <;> ring
  have hhei : (fixCanvasSize s D W).height =
      if W > 440 then (9 * W - 278) * D / 35 else (9 * W - 262) * D / 35 := by
    rw [hh, hp, hw, hr]
    split <;> ring
  have pos : ∀ a : ℚ, 0 < a → 0 < a * D / 35 := fun a ha =>
    div_pos (mul_pos ha hD) (by norm_num)
  have neg : ∀ a : ℚ, a < 0 → a * D / 35 < 0 := fun a ha =>
    div_neg_of_neg_of_pos (mul_neg_of_neg_of_pos ha hD) (by norm_num)
  refine ⟨hr, hw, hp, hh, ?_, ?_, ?_, ?_, ?_, ?_⟩
  · rw [hr]
    split <;> positivity
  · rw [hw]
    positivity
  · intro h
    rw [hpad, hhei]
    split
    · exact ⟨pos _ (by linarith), pos _ (by linarith)⟩
    · exact ⟨pos _ (by linarith), pos _ (by linarith)⟩
  · intro h
    rw [hpad, if_neg (by linarith)]
    exact neg _ (by linarith)
  · intro h
    rw [hhei, if_neg (by linarith)]
    exact neg _ (by linarith)
  · intro h
    rw [hhei]
    split
    · exact pos _ (by linarith)
    · exact pos _ (by linarith)

/-- C7 witness for `fixCanvasSize_nonneg`: at `W = 300`, `D = 2` the padding and the height
are positive; at `W = 20`, `D = 2` both are negative. -/
theorem fixCanvasSize_nonneg_witness :
    (0 < (fixCanvasSize initialRenderer 2 300).padding ∧
      0 < (fixCanvasSize initialRenderer 2 300).height) ∧
    (fixCanvasSize initialRenderer 2 20).padding < 0 ∧
    (fixCanvasSize initialRenderer 2 20).height < 0 :=
  ⟨(fixCanvasSize_nonneg initialRenderer 300 2 (by norm_num) (by norm_num)).2.2.2.2.2.2.1
      (by norm_num),
    (fixCanvasSize_nonneg initialRenderer 20 2 (by norm_num) (by norm_num)).2.2.2.2.2.2.2.1
      (by norm_num),
    (fixCanvasSize_nonneg initialRenderer 20 2 (by norm_num) (by norm_num)).2.2.2.2.2.2.2.2.1
      (by norm_num)⟩

theorem circleCentre_fixCanvasSize (s : Renderer) (W : ℚ) (col row : Nat) :
    (circleCentre (fixCanvasSize s 1 W) col row).1 =
      ((col : ℚ) + ((col / 8 : Nat) : ℚ) / 4) *
        ((fixCanvasSize s 1 W).radius * 2 + (fixCanvasSize s 1 W).padding) + 1 / 2 +
        ((fixCanvasSize s 1 W).padding / 2 + (fixCanvasSize s 1 W).radius) + 22 ∧
    (circleCentre (fixCanvasSize s 1 W) col row).2 =
      (row : ℚ) * ((fixCanvasSize s 1 W).radius * 2 + (fixCanvasSize s 1 W).padding) +
        1 / 2 + ((fixCanvasSize s 1 W).padding / 2 + (fixCanvasSize s 1 W).radius) := by
  have hd : (fixCanvasSize s 1 W).dpr = 1 := (fixCanvasSize_fields s 1 W one_ne_zero).1
  simp only [circleCentre, hd, leftMargin, mul_one, and_self]

theorem colAdjusted_bounds (col : Nat) (h : col < 32) :
    (0 : ℚ) ≤ (col : ℚ) + ((col / 8 : Nat) : ℚ) / 4 ∧
    (col : ℚ) + ((col / 8 : Nat) : ℚ) / 4 ≤ 127 / 4 := by
  have h1 : (col : ℚ) ≤ 31 := by exact_mod_cast Nat.le_of_lt_succ h
  have h2 : ((col / 8 : Nat) : ℚ) ≤ 3 := by
    have : col / 8 ≤ 3 := by omega
    exact_mod_cast this
  have h3 : (0 : ℚ) ≤ (col : ℚ) := Nat.cast_nonneg col
  have h4 : (0 : ℚ) ≤ ((col / 8 : Nat) : ℚ) := Nat.cast_nonneg _
  constructor <;> linarith

/-- Geometry of `fixCanvasSize` at device pixel ratio 1, by the branch taken for the radius. -/
theorem fixCanvasSize_dpr_one (s : Renderer) (W : ℚ) :
    (fixCanvasSize s 1 W).width = W ∧
    ((W ≤ 440 ∧ (fixCanvasSize s 1 W).radius = 4 ∧
        (fixCanvasSize s 1 W).padding = (W - 278) / 35 ∧
        (fixCanvasSize s 1 W).height = 64 + 9 * ((W - 278) / 35)) ∨
     (440 < W ∧ (fixCanvasSize s 1 W).radius = 5 ∧
        (fixCanvasSize s 1 W).padding = (W - 342) / 35 ∧
        (fixCanvasSize s 1 W).height = 80 + 9 * ((W - 342) / 35))) := by
  obtain ⟨-, hw, hr, hp, hh, -, -⟩ := fixCanvasSize_fields s 1 W one_ne_zero
  refine ⟨by rw [hw, mul_one], ?_⟩
  by_cases h : W > 440
  · right
    rw [if_pos h] at hr
    have hp2 : (fixCanvasSize s 1 W).padding = (W - 342) / 35 := by
      rw [hp, hw, hr]
      ring
    refine ⟨h, by rw [hr]; ring, hp2, ?_⟩
    rw [hh, hr, hp2]
    ring
  · left
    rw [if_neg h] at hr
    have hp2 : (fixCanvasSize s 1 W).padding = (W - 278) / 35 := by
      rw [hp, hw, hr]
      ring
    refine ⟨not_lt.1 h, by rw [hr]; ring, hp2, ?_⟩
    rw [hh, hr, hp2]
    ring

theorem cell_products (cell : ℚ) {c ρ : ℚ} (hc0 : 0 ≤ c) (hc1 : c ≤ 127 / 4) (hρ0 : 0 ≤ ρ)
    (hρ1 : ρ ≤ 7) (hcell : 0 ≤ cell) :
    0 ≤ c * cell ∧ c * cell ≤ 127 / 4 * cell ∧ 0 ≤ ρ * cell ∧ ρ * cell ≤ 7 * cell :=
  ⟨mul_nonneg hc0 hcell, mul_le_mul_of_nonneg_right hc1 hcell, mul_nonneg hρ0 hcell,
    mul_le_mul_of_nonneg_right hρ1 hcell⟩

theorem dotInsideCanvas_of_padding (s : Renderer) (W : ℚ) (col row : Nat)
    (hcol : col < dotsPerRow) (hrow : row < rows)
    (hA : W ≤ 440 → 361 ≤ W) (hB : 440 < W → 444 ≤ W) :
    dotInsideCanvas (fixCanvasSize s 1 W) col row := by
  obtain ⟨hw, hcase⟩ := fixCanvasSize_dpr_one s W
  obtain ⟨hx, hy⟩ := circleCentre_fixCanvasSize s W col row
  obtain ⟨hc0, hc1⟩ := colAdjusted_bounds col hcol
  have hρ0 : (0 : ℚ) ≤ (row : ℚ) := Nat.cast_nonneg row
  have hρ1 : (row : ℚ) ≤ 7 := by exact_mod_cast Nat.le_of_lt_succ hrow
  unfold dotInsideCanvas
  rw [hx, hy, hw]
  rcases hcase with ⟨hle, hr, hp, hh⟩ | ⟨hlt, hr, hp, hh⟩
  · have hW := hA hle
    rw [hr, hp, hh]
    obtain ⟨m1, m2, m3, m4⟩ := cell_products (4 * 2 + (W - 278) / 35) hc0 hc1 hρ0 hρ1
      (by linarith)
    refine ⟨?_, ?_, ?_, ?_⟩ <;> linarith
  · have hW := hB hlt
    rw [hr, hp, hh]
    obtain ⟨m1, m2, m3, m4⟩ := cell_products (5 * 2 + (W - 342) / 35) hc0 hc1 hρ0 hρ1
      (by linarith)
    refine ⟨?_, ?_, ?_, ?_⟩ <;> linarith

theorem rightmost_column_edge (s : Renderer) (W : ℚ) (row : Nat) :
    (W ≤ 440 ∧ (circleCentre (fixCanvasSize s 1 W) 31 row).1 + (fixCanvasSize s 1 W).radius =
        569 / 2 + 129 / 4 * ((W - 278) / 35)) ∨
    (440 < W ∧ (circleCentre (fixCanvasSize s 1 W) 31 row).1 + (fixCanvasSize s 1 W).radius =
        350 + 129 / 4 * ((W - 342) / 35)) := by
  obtain ⟨-, hcase⟩ := fixCanvasSize_dpr_one s W
  obtain ⟨hx, -⟩ := circleCentre_fixCanvasSize s W 31 row
  have h318 : ((31 / 8 : Nat) : ℚ) = 3 := by norm_num
  rw [hx, h318]
  rcases hcase with ⟨hle, hr, hp, -⟩ | ⟨hlt, hr, hp, -⟩
  · left
    refine ⟨hle, ?_⟩
    rw [hr, hp]
    push_cast
    ring
  · right
    refine ⟨hlt, ?_⟩
    rw [hr, hp]
    push_cast
    ring

/-- C10: at device pixel ratio 1 and for every integer CSS width `W ≥ 0`, with the geometry
of `fixCanvasSize(W)` and the centres of `renderCircle`, all 256 dot circles (rows 0..7,
columns 0..31) lie inside the canvas rectangle `[0, width] x [0, height]` if and only if
`361 ≤ W ≤ 440` or `W ≥ 444`; the rightmost column is clipped for `W = 441, 442, 443` and
for every `W ≤ 360`. -/
theorem grid_fits_canvas_iff (s : Renderer) (W : Nat) :
    ((∀ row, row < rows → ∀ col, col < dotsPerRow →
        dotInsideCanvas (fixCanvasSize s 1 W) col row) ↔
      ((361 ≤ W ∧ W ≤ 440) ∨ 444 ≤ W)) ∧
    ((W ≤ 360 ∨ W = 441 ∨ W = 442 ∨ W = 443) →
      ∀ row, (fixCanvasSize s 1 W).width <
        (circleCentre (fixCanvasSize s 1 W) 31 row).1 + (fixCanvasSize s 1 W).radius) := by
  have hw : (fixCanvasSize s 1 W).width = W := (fixCanvasSize_dpr_one s W).1
  constructor
  · constructor
    · intro hall
      have h := (hall 0 (by decide) 31 (by decide)).2.1
      rw [hw] at h
      rcases rightmost_column_edge s W 0 with ⟨hle, he⟩ | ⟨hlt, he⟩
      · rw [he] at h
        have h1 : (360 : ℚ) < W := by linarith
        have h2 : 360 < W := by exact_mod_cast h1
        have h3 : W ≤ 440 := by exact_mod_cast hle
        exact Or.inl ⟨h2, h3⟩
      · rw [he] at h
        have h1 : (443 : ℚ) < W := by linarith
        have h2 : 443 < W := by exact_mod_cast h1
        exact Or.inr h2
    · intro hW row hrow col hcol
      apply dotInsideCanvas_of_padding s W col row hcol hrow
      · intro hle
        have h3 : W ≤ 440 := by exact_mod_cast hle
        have h4 : 361 ≤ W := by omega
        exact_mod_cast h4
      · intro hlt
        have h3 : 440 < W := by exact_mod_cast hlt
        have h4 : 444 ≤ W := by omega
        exact_mod_cast h4
  · intro hW row
    rw [hw]
    rcases rightmost_column_edge s W row with ⟨hle, he⟩ | ⟨hlt, he⟩
    · rw [he]
      have h3 : W ≤ 440 := by exact_mod_cast hle
      have h4 : W ≤ 360 := by omega
      have h5 : (W : ℚ) ≤ 360 := by exact_mod_cast h4
      linarith
    · rw [he]
      have h3 : 440 < W := by exact_mod_cast hlt
      have h4 : W ≤ 443 := by omega
      have h5 : (W : ℚ) ≤ 443 := by exact_mod_cast h4
      linarith

/-- C10 witness for `grid_fits_canvas_iff`: at `W = 442` the rightmost column is clipped. -/
theorem grid_fits_canvas_iff_witness :
    (442 ≤ 360 ∨ 442 = 441 ∨ 442 = 442 ∨ 442 = 443) ∧
    ∀ row, (fixCanvasSize initialRenderer 1 (442 : Nat)).width <
      (circleCentre (fixCanvasSize initialRenderer 1 (442 : Nat)) 31 row).1 +
        (fixCanvasSize initialRenderer 1 (442 : Nat)).radius :=
  ⟨by decide, (grid_fits_canvas_iff initialRenderer 442).2 (by decide)⟩


theorem hasGeometry_appendCalls {W D : ℚ} {s : Renderer} (h : HasGeometry W D s)
    (c : List CtxCall) : HasGeometry W D (appendCalls s c) := h

theorem appendCalls_appendCalls (s : Renderer) (c d : List CtxCall) :
    appendCalls (appendCalls s c) d = appendCalls s (c ++ d) := by
  simp [appendCalls]

theorem appendCalls_nil (s : Renderer) : appendCalls s [] = s := by
  simp [appendCalls]

/-- A loop whose body only appends calls that depend on the geometry appends the calls of
all its iterations, in order. -/
theorem foldl_appendCalls {α : Type} (W D : ℚ) (f : Renderer → α → Renderer)
    (h : α → List CtxCall)
    (hf : ∀ s a, HasGeometry W D s → f s a = appendCalls s (h a)) (l : List α)
    (s : Renderer) (hs : HasGeometry W D s) :
    l.foldl f s = appendCalls s (l.flatMap h) := by
  induction l generalizing s with
  | nil => simp [appendCalls_nil]
  | cons a l ih =>
    rw [List.foldl_cons, hf s a hs, ih _ (hasGeometry_appendCalls hs _),
      appendCalls_appendCalls, List.flatMap_cons]

theorem renderCircle_spec {W D : ℚ} {s : Renderer} (hs : HasGeometry W D s)
    (col row : Nat) : renderCircle s col row = appendCalls s (specDot W D row col) := by
  obtain ⟨hd, -, hr, hp, -⟩ := hs
  have hx : (circleCentre s col row).1 =
      ((col : ℚ) + ((col / 8 : Nat) : ℚ) / 4) * (2 * specRadius W D + specPadding W D) +
        22 * D + specPadding W D / 2 + specRadius W D + 1 / 2 := by
    simp only [circleCentre, hd, hr, hp, leftMargin]
    ring
  have hy : (circleCentre s col row).2 =
      (row : ℚ) * (2 * specRadius W D + specPadding W D) + specPadding W D / 2 +
        specRadius W D + 1 / 2 := by
    simp only [circleCentre, hd, hr, hp, leftMargin]
    ring
  simp only [renderCircle, appendCalls, specDot, hx, hy, hr]

theorem drawPass_spec {W D : ℚ} {s : Renderer} (hs : HasGeometry W D s)
    (value : List Bool) (pass : Bool) :
    drawPass value s pass = appendCalls s (specPass W D value pass) := by
  have hinner : ∀ (row : Nat) (t : Renderer), HasGeometry W D t →
      (List.range dotsPerRow).foldl
        (fun acc col =>
          let ind := row * dotsPerRow + col
          if value[ind]? = some pass then renderCircle acc col row else acc) t =
      appendCalls t ((List.range 32).flatMap (fun col =>
        if value[row * 32 + col]? = some pass then specDot W D row col else [])) := by
    intro row t ht
    have h32 : dotsPerRow = 32 := rfl
    rw [h32]
    apply foldl_appendCalls W D _ _ _ _ t ht
    intro u col hu
    dsimp only
    split
    · exact renderCircle_spec hu col row
    · exact (appendCalls_nil u).symm
  have houter : ∀ t : Renderer, HasGeometry W D t →
      (List.range rows).foldl
        (fun acc row =>
          (List.range dotsPerRow).foldl
            (fun acc col =>
              let ind := row * dotsPerRow + col
              if value[ind]? = some pass then renderCircle acc col row else acc)
            acc) t =
      appendCalls t ((List.range 8).flatMap (fun row =>
        (List.range 32).flatMap (fun col =>
          if value[row * 32 + col]? = some pass then specDot W D row col else []))) := by
    intro t ht
    have h8 : rows = 8 := rfl
    rw [h8]
    apply foldl_appendCalls W D _ _ _ _ t ht
    intro u row hu
    exact hinner row u hu
  unfold drawPass
  have h1 : ({ s with calls := s.calls ++ [.beginPath] } : Renderer) =
      appendCalls s [.beginPath] := rfl
  simp only [h1]
  rw [houter _ (hasGeometry_appendCalls hs _)]
  simp [appendCalls, specPass]

theorem renderNumbers_spec {W D : ℚ} {s : Renderer} (hs : HasGeometry W D s) :
    renderNumbers s = appendCalls s (specNumbers W D) := by
  obtain ⟨hd, -, hr, hp, -⟩ := hs
  simp only [renderNumbers, appendCalls, specNumbers, hd, hr, hp]
  congr 3
  ring_nf

theorem update_spec {W D : ℚ} {s : Renderer} (hs : HasGeometry W D s) (value : List Bool) :
    update s value =
      appendCalls { s with lastValue := some value } (specRedraw W D value) := by
  have hs1 : HasGeometry W D { s with lastValue := some value } := hs
  obtain ⟨-, hw, -, -, hh⟩ := hs
  unfold update
  have h1 : ({ ({ s with lastValue := some value } : Renderer) with
      calls := ({ s with lastValue := some value } : Renderer).calls ++
        [.setFillStyle "black",
         .clearRect 0 0 ({ s with lastValue := some value } : Renderer).width
           ({ s with lastValue := some value } : Renderer).height] } : Renderer) =
      appendCalls { s with lastValue := some value }
        [.setFillStyle "black", .clearRect 0 0 (W * D) (specHeight W D)] := by
    simp only [appendCalls, hw, hh]
  simp only [h1, List.foldl_cons, List.foldl_nil]
  rw [drawPass_spec (hasGeometry_appendCalls hs1 _), appendCalls_appendCalls,
    drawPass_spec (hasGeometry_appendCalls hs1 _), appendCalls_appendCalls,
    renderNumbers_spec (hasGeometry_appendCalls hs1 _), appendCalls_appendCalls]
  simp [specRedraw, List.append_assoc]

theorem fixCanvasSize_hasGeometry (s : Renderer) (W D : ℚ) (hD : D ≠ 0) :
    HasGeometry W D (fixCanvasSize s D W) := by
  obtain ⟨hd, hw, hr, hp, hh, -, -⟩ := fixCanvasSize_fields s D W hD
  have hr2 : (fixCanvasSize s D W).radius = specRadius W D := hr
  have hp2 : (fixCanvasSize s D W).padding = specPadding W D := by
    rw [hp, hw, hr2]
    unfold specPadding
    ring
  refine ⟨hd, hw, hr2, hp2, ?_⟩
  rw [hh, hr2, hp2]
  rfl

set_option maxRecDepth 100000 in
theorem specRedraw_example :
    specRedraw 300 1 [true, false, true] =
      [.setFillStyle "black",
       .clearRect 0 0 300 (2438 / 35),
       .beginPath,
       .moveTo (1877 / 70) (337 / 70),
       .arc (1877 / 70) (337 / 70) 4,
       .moveTo (617 / 14) (337 / 70),
       .arc (617 / 14) (337 / 70) 4,
       .setFillStyle "white",
       .fill,
       .beginPath,
       .moveTo (2481 / 70) (337 / 70),
       .arc (2481 / 70) (337 / 70) 4,
       .setFillStyle "rgba(255, 255, 255, .2)",
       .fill,
       .setFillStyle "rgba(255, 255, 255, .6)",
       .setFont 10,
       .setTextAlign "right",
       .fillText "256" 20 (267 / 35),
       .fillText "192" 20 (871 / 35),
       .fillText "128" 20 (295 / 7),
       .fillText "64" 20 (292 / 5)] := by
  have h8 : List.range 8 = [0, 1, 2, 3, 4, 5, 6, 7] := by decide
  have h32 : List.range 32 = [0, 1, 2, 3, 4, 5, 6, 7, 8, 9, 10, 11, 12, 13, 14, 15, 16, 17,
      18, 19, 20, 21, 22, 23, 24, 25, 26, 27, 28, 29, 30, 31] := by decide
  simp only [specRedraw, specPass, h8, h32, List.flatMap_cons, List.flatMap_nil]
  simp
  norm_num [specDot, specNumbers, specHeight, specPadding, specRadius]

/-- C8: for every renderer state whose last `update` stored the bit sequence `b`, a resize
notification with new CSS width `W` at device pixel ratio `D` sets the radius to
`(W > 440 ? 5 : 4) * D` and the other geometry variables to those of `(W, D)`, leaves the
stored value equal to `b`, and, with no `update` call from outside, appends to the call log
exactly the redraw of `b` in the new geometry: `clearRect` of the new surface, one path and
one `fill` with the circles of the `true` bits, one with the circles of the `false` bits,
then the labels. If no `update` has happened yet the resize recomputes the geometry and
draws nothing. -/
theorem resizeEntry_transition (s : Renderer) (W D : ℚ) (hD : D ≠ 0) :
    (∀ b, s.lastValue = some b →
      (resizeEntry D s W).radius = (if W > 440 then 5 else 4) * D ∧
      (resizeEntry D s W).lastValue = some b ∧
      (resizeEntry D s W).calls = s.calls ++ specRedraw W D b ∧
      HasGeometry W D (resizeEntry D s W) ∧
      resizeEntry D s W = update (fixCanvasSize s D W) b ∧
      resizeObserver D s [W] = resizeEntry D s W) ∧
    (s.lastValue = none →
      resizeEntry D s W = fixCanvasSize s D W ∧
      (resizeEntry D s W).radius = (if W > 440 then 5 else 4) * D ∧
      HasGeometry W D (resizeEntry D s W) ∧
      (resizeEntry D s W).lastValue = none ∧
      (resizeEntry D s W).calls = s.calls) := by
  obtain ⟨-, -, hr, -, -, hl, hc⟩ := fixCanvasSize_fields s D W hD
  have hg := fixCanvasSize_hasGeometry s W D hD
  constructor
  · intro b hb
    have he : resizeEntry D s W = update (fixCanvasSize s D W) b := by
      unfold resizeEntry
      simp only [hl, hb]
    have hu := update_spec hg b
    refine ⟨?_, ?_, ?_, ?_, he, rfl⟩
    · rw [he, hu]
      exact hr
    · rw [he, hu]
      rfl
    · rw [he, hu]
      show (fixCanvasSize s D W).calls ++ specRedraw W D b = s.calls ++ specRedraw W D b
      rw [hc]
    · rw [he, hu]
      exact hg
  · intro hn
    have he : resizeEntry D s W = fixCanvasSize s D W := by
      unfold resizeEntry
      simp only [hl, hn]
    exact ⟨he, by rw [he, hr], by rw [he]; exact hg, by rw [he, hl, hn], by rw [he, hc]⟩

/-- C8 witness for `resizeEntry_transition`: mounted at width 500 with `D = 1`, after
`update([true, false, true])` the radius is 5; the resize to width 300 takes it to 4, keeps
the stored sequence and appends the redraw of its three bits in the geometry of width 300
(padding 22/35, height 2438/35). -/
theorem resizeEntry_transition_witness :
    (update (prepareCanvas 1 500) [true, false, true]).lastValue = some [true, false, true] ∧
    (update (prepareCanvas 1 500) [true, false, true]).radius = 5 ∧
    (resizeEntry 1 (update (prepareCanvas 1 500) [true, false, true]) 300).radius = 4 ∧
    (resizeEntry 1 (update (prepareCanvas 1 500) [true, false, true]) 300).lastValue =
      some [true, false, true] ∧
    (resizeEntry 1 (update (prepareCanvas 1 500) [true, false, true]) 300).calls =
      (update (prepareCanvas 1 500) [true, false, true]).calls ++
        [.setFillStyle "black",
         .clearRect 0 0 300 (2438 / 35),
         .beginPath,
         .moveTo (1877 / 70) (337 / 70),
         .arc (1877 / 70) (337 / 70) 4,
         .moveTo (617 / 14) (337 / 70),
         .arc (617 / 14) (337 / 70) 4,
         .setFillStyle "white",
         .fill,
         .beginPath,
         .moveTo (2481 / 70) (337 / 70),
         .arc (2481 / 70) (337 / 70) 4,
         .setFillStyle "rgba(255, 255, 255, .2)",
         .fill,
         .setFillStyle "rgba(255, 255, 255, .6)",
         .setFont 10,
         .setTextAlign "right",
         .fillText "256" 20 (267 / 35),
         .fillText "192" 20 (871 / 35),
         .fillText "128" 20 (295 / 7),
         .fillText "64" 20 (292 / 5)] := by
  have hu := update_spec (fixCanvasSize_hasGeometry initialRenderer 500 1 one_ne_zero)
    [true, false, true]
  have hl : (update (prepareCanvas 1 500) [true, false, true]).lastValue =
      some [true, false, true] := by
    unfold prepareCanvas
    rw [hu]
    rfl
  have hr : (update (prepareCanvas 1 500) [true, false, true]).radius = 5 := by
    unfold prepareCanvas
    rw [hu]
    show (fixCanvasSize initialRenderer 1 500).radius = 5
    rw [(fixCanvasSize_fields initialRenderer 1 500 one_ne_zero).2.2.1]
    norm_num
  have h := (resizeEntry_transition (update (prepareCanvas 1 500) [true, false, true]) 300 1
    one_ne_zero).1 [true, false, true] hl
  refine ⟨hl, hr, ?_, h.2.1, ?_⟩
  · rw [h.1]
    norm_num
  · rw [h.2.2.1, specRedraw_example]

end Script256
